import Mathlib

set_option allowUnsafeReducibility true

/- The library marks the arithmetic of ℚ irreducible, which blocks the
kernel evaluation used to check concrete runs of the engine; restore the
default reducibility for this file. -/
attribute [local semireducible] Rat.add Rat.mul Rat.inv Rat.sub Rat.ofScientific

/-!
Verification development for the math-tutor mastery-tracking and
learning-path-generation engine (src/lib/gapAnalysis.ts, first class in the
file, together with the static catalog in src/lib/data.ts).

Modelling conventions:
* JS numbers are modelled as rationals (ℚ); all constants of the engine
  (0.1, 0.05, 0.8, ...) are exactly representable and no claim hinges on
  binary floating-point rounding.  The single place where JS produces NaN
  (the 0/0 confidence division for a target without prerequisites) is
  modelled explicitly with an Option, none standing for NaN.
* JS `Record<string, T>` objects are association lists that keep insertion
  order (JS objects enumerate string keys in insertion order, which matters
  for getTopicsDueForReview); setting an existing key keeps its position.
* `Date.now()` is passed in as an explicit integer timestamp.
* Presentational strings (topic/problem prose, path names and descriptions,
  recommendation reason texts) are not consumed by the engine logic and are
  omitted from the records.
-/

/-- Difficulty levels of topics and problems (data.ts). -/
inductive Difficulty where
  | easy
  | medium
  | hard
deriving DecidableEq, Repr

/-- A weighted prerequisite edge of the topic graph (data.ts). -/
structure Prerequisite where
  topicId : String
  weight : ℚ
  requiredMastery : ℚ
deriving DecidableEq, Repr

/-- A topic of the static catalog (data.ts).  The presentational fields
(category, tags) and the unused lastPracticed field are omitted. -/
structure Topic where
  id : String
  name : String
  prerequisites : List Prerequisite
  difficulty : Difficulty
  mastery : ℚ
  impactScore : Option ℚ
  estimatedTime : Option ℚ
deriving DecidableEq, Repr

/-- A practice problem (data.ts).  Only the fields the engine reads are
kept: id, requiredTopics, difficulty and relatedTopics.  A JS problem with
no relatedTopics field behaves exactly like one with an empty list (the
code returns early in both cases), so absence is modelled as []. -/
structure Problem where
  id : String
  requiredTopics : List String
  difficulty : Difficulty
  relatedTopics : List String
deriving DecidableEq, Repr

/-- Catalog topic basic_arithmetic (data.ts). -/
def topic_basic_arithmetic : Topic :=
  { id := "basic_arithmetic", name := "Basic Arithmetic", prerequisites := [],
    difficulty := .easy, mastery := 0, impactScore := some 0.9, estimatedTime := some 30 }

/-- Catalog topic fractions (data.ts). -/
def topic_fractions : Topic :=
  { id := "fractions", name := "Fractions",
    prerequisites := [⟨"basic_arithmetic", 0.8, 0.7⟩],
    difficulty := .easy, mastery := 0, impactScore := some 0.85, estimatedTime := some 45 }

/-- Catalog topic basic_algebra (data.ts). -/
def topic_basic_algebra : Topic :=
  { id := "basic_algebra", name := "Basic Algebra",
    prerequisites := [⟨"basic_arithmetic", 0.9, 0.8⟩, ⟨"fractions", 0.7, 0.6⟩],
    difficulty := .medium, mastery := 0, impactScore := some 0.95, estimatedTime := some 60 }

/-- Catalog topic geometry (data.ts). -/
def topic_geometry : Topic :=
  { id := "geometry", name := "Geometry",
    prerequisites := [⟨"basic_arithmetic", 0.7, 0.6⟩, ⟨"fractions", 0.6, 0.5⟩],
    difficulty := .medium, mastery := 0, impactScore := some 0.75, estimatedTime := some 90 }

/-- Catalog topic intermediate_algebra (data.ts). -/
def topic_intermediate_algebra : Topic :=
  { id := "intermediate_algebra", name := "Intermediate Algebra",
    prerequisites := [⟨"basic_algebra", 0.9, 0.8⟩, ⟨"geometry", 0.5, 0.4⟩],
    difficulty := .hard, mastery := 0, impactScore := some 0.85, estimatedTime := some 120 }

/-- Catalog topic word_problems (data.ts). -/
def topic_word_problems : Topic :=
  { id := "word_problems", name := "Word Problems",
    prerequisites := [⟨"basic_arithmetic", 0.8, 0.7⟩, ⟨"basic_algebra", 0.7, 0.6⟩],
    difficulty := .hard, mastery := 0, impactScore := some 0.8, estimatedTime := some 90 }

/-- The static topic catalog, in source order (data.ts). -/
def topics : List Topic :=
  [topic_basic_arithmetic, topic_fractions, topic_basic_algebra,
   topic_geometry, topic_intermediate_algebra, topic_word_problems]

/-- getTopicById from data.ts: first catalog topic with the given id. -/
def getTopicById (id : String) : Option Topic :=
  topics.find? (fun tp => tp.id == id)

/-- Problem add1 from data.ts (the engine only reads id, requiredTopics,
difficulty and relatedTopics). -/
def add1 : Problem :=
  { id := "add1", requiredTopics := ["basic_arithmetic"], difficulty := .easy,
    relatedTopics := [] }

/-! ## JS record (object) helpers -/

/-- Set a key of a JS-style record: an existing key keeps its position, a
new key is appended (JS string-keyed objects keep insertion order). -/
def recSet {α : Type} : List (String × α) → String → α → List (String × α)
  | [], k, v => [(k, v)]
  | (k', v') :: rest, k, v =>
    if k' = k then (k, v) :: rest else (k', v') :: recSet rest k v

/-- Read a key of a JS-style record (undefined = none). -/
def recGet {α : Type} : List (String × α) → String → Option α
  | [], _ => none
  | (k', v') :: rest, k => if k' = k then some v' else recGet rest k

theorem recGet_recSet {α : Type} (m : List (String × α)) (k u : String) (v : α) :
    recGet (recSet m k v) u = if u = k then some v else recGet m u := by
  induction m with
  | nil =>
    rcases eq_or_ne u k with h | h
    · subst h; simp [recSet, recGet]
    · simp [recSet, recGet, h, Ne.symm h]
  | cons kv rest ih =>
    obtain ⟨k', v'⟩ := kv
    rcases eq_or_ne k' k with hk | hk
    · subst hk
      rcases eq_or_ne u k' with h | h
      · subst h; simp [recSet, recGet]
      · simp [recSet, recGet, h, Ne.symm h]
    · rcases eq_or_ne u k' with h | h
      · subst h
        have hne : ¬ u = k := fun hc => hk (hc ▸ rfl)
        simp [recSet, recGet, hk, hne]
      · simp [recSet, recGet, hk, h, Ne.symm h, ih]

/-- JS `x || d` for an optional number: undefined and 0 are falsy. -/
def jsOr (o : Option ℚ) (d : ℚ) : ℚ :=
  match o with
  | none => d
  | some v => if v = 0 then d else v

/-- JS truthiness of an optional timestamp: undefined and 0 are falsy. -/
def jsTruthyTime (o : Option ℤ) : Bool :=
  match o with
  | none => false
  | some v => decide (v ≠ 0)

/-- Math.max(0, Math.min(1, x)). -/
def clamp01 (x : ℚ) : ℚ := max 0 (min 1 x)

/-! ## Engine state (the private fields of MathLearningAssistant) -/

/-- A recorded attempt (the UserResponse type of gapAnalysis.ts). -/
structure UserResponse where
  problemId : String
  isCorrect : Bool
  timestamp : ℤ
  timeSpent : ℚ
deriving DecidableEq, Repr

/-- The mutable state of MathLearningAssistant.  The problemHistory field
of the source is declared but never written or read, so it is omitted. -/
structure EngineState where
  userResponses : List UserResponse
  topicMastery : List (String × ℚ)
  topicLastPracticed : List (String × ℤ)
  topicNextReview : List (String × ℤ)
  topicReviewCount : List (String × ℕ)
deriving DecidableEq, Repr

/-- The freshly constructed engine: every catalog topic starts at mastery
0; the other records are empty. -/
def initState : EngineState :=
  { userResponses := []
  , topicMastery := topics.foldl (fun m tp => recSet m tp.id 0) []
  , topicLastPracticed := []
  , topicNextReview := []
  , topicReviewCount := [] }

/-- getTopicMastery: `this.topicMastery[topicId] || 0`.  Every value the
engine ever stores is nonnegative, so the JS `|| 0` (which also maps a
stored 0 to 0) coincides with defaulting an absent entry to 0. -/
def getTopicMastery (s : EngineState) (topicId : String) : ℚ :=
  (recGet s.topicMastery topicId).getD 0

def setMastery (s : EngineState) (k : String) (v : ℚ) : EngineState :=
  { s with topicMastery := recSet s.topicMastery k v }

def setLastPracticed (s : EngineState) (k : String) (v : ℤ) : EngineState :=
  { s with topicLastPracticed := recSet s.topicLastPracticed k v }

def setNextReview (s : EngineState) (k : String) (v : ℤ) : EngineState :=
  { s with topicNextReview := recSet s.topicNextReview k v }

def setReviewCount (s : EngineState) (k : String) (v : ℕ) : EngineState :=
  { s with topicReviewCount := recSet s.topicReviewCount k v }

/-! ## Spaced repetition scheduling -/

/-- SPACED_REPETITION_SCHEDULE (days). -/
def SPACED_REPETITION_SCHEDULE : List ℤ := [1, 3, 7, 14, 30, 60, 90]

/-- MASTERY_THRESHOLDS.easy. -/
def thresholdEasy : ℚ := 0.8

/-- MASTERY_THRESHOLDS.review. -/
def thresholdReview : ℚ := 0.6

/-- MASTERY_THRESHOLDS.hard. -/
def thresholdHard : ℚ := 0.4

/-- Milliseconds in a day (24 * 60 * 60 * 1000). -/
def msPerDay : ℤ := 24 * 60 * 60 * 1000

/-- updateSpacedRepetitionSchedule from gapAnalysis.ts. -/
def updateSpacedRepetitionSchedule (s : EngineState) (topicId : String)
    (mastery : ℚ) (isCorrect : Bool) (now : ℤ) : EngineState :=
  let reviewCount := (recGet s.topicReviewCount topicId).getD 0
  if isCorrect && decide (thresholdEasy ≤ mastery) then
    let intervalIndex := min reviewCount (SPACED_REPETITION_SCHEDULE.length - 1)
    let days := SPACED_REPETITION_SCHEDULE.getD intervalIndex 0
    setNextReview s topicId (now + days * msPerDay)
  else if !isCorrect || decide (mastery < thresholdHard) then
    setNextReview s topicId (now + msPerDay)
  else s

/-- calculateNextReview from gapAnalysis.ts (the isCorrect parameter is
accepted and unused, as in the source). -/
def calculateNextReview (s : EngineState) (topicId : String)
    (mastery : ℚ) (_isCorrect : Bool) (now : ℤ) : EngineState :=
  let reviewCount := (recGet s.topicReviewCount topicId).getD 0
  if !jsTruthyTime (recGet s.topicNextReview topicId)
      || decide ((recGet s.topicNextReview topicId).getD 0 < now) then
    if thresholdEasy ≤ mastery then
      let intervalIndex := min reviewCount (SPACED_REPETITION_SCHEDULE.length - 1)
      let days := SPACED_REPETITION_SCHEDULE.getD intervalIndex 0
      setNextReview s topicId (now + days * msPerDay)
    else if thresholdReview ≤ mastery then
      setNextReview s topicId (now + 3 * msPerDay)
    else
      setNextReview s topicId (now + msPerDay)
  else s

/-! ## Mastery updates -/

/-- One iteration of the updateMasteryScores forEach body for a single
required topic id. -/
def masteryStep (isCorrect : Bool) (now : ℤ) (s : EngineState) (topicId : String) :
    EngineState :=
  let masteryChange : ℚ := if isCorrect then 0.1 else -0.05
  let currentMastery := getTopicMastery s topicId
  let s1 := setLastPracticed s topicId now
  let s2 := if (recGet s1.topicReviewCount topicId).isNone
            then setReviewCount s1 topicId 0 else s1
  let newMastery := clamp01 (currentMastery + masteryChange)
  let s3 := setMastery s2 topicId newMastery
  let s4 := updateSpacedRepetitionSchedule s3 topicId newMastery isCorrect now
  let s5 := if jsTruthyTime (recGet s4.topicNextReview topicId)
                && decide ((recGet s4.topicNextReview topicId).getD 0 ≤ now)
            then setReviewCount s4 topicId ((recGet s4.topicReviewCount topicId).getD 0 + 1)
            else s4
  calculateNextReview s5 topicId newMastery isCorrect now

/-- updateMasteryScores from gapAnalysis.ts: fold the per-topic body over
problem.requiredTopics. -/
def updateMasteryScores (s : EngineState) (problem : Problem) (isCorrect : Bool)
    (now : ℤ) : EngineState :=
  problem.requiredTopics.foldl (masteryStep isCorrect now) s

/-- One iteration of the updateRelatedTopicsMastery forEach body: only
topics that already have a mastery entry are touched. -/
def relatedStep (masteryChange : ℚ) (s : EngineState) (topicId : String) : EngineState :=
  match recGet s.topicMastery topicId with
  | none => s
  | some _ => setMastery s topicId (clamp01 (getTopicMastery s topicId + masteryChange))

/-- updateRelatedTopicsMastery from gapAnalysis.ts (the early return for a
missing or empty relatedTopics list coincides with folding over []). -/
def updateRelatedTopicsMastery (s : EngineState) (problem : Problem)
    (isCorrect : Bool) : EngineState :=
  let masteryChange : ℚ := if isCorrect then 0.02 else -0.01
  problem.relatedTopics.foldl (relatedStep masteryChange) s

/-- processResponse from gapAnalysis.ts: record the attempt, stamp
lastPracticed for every required topic, update mastery scores (which stamps
lastPracticed again), then update related topics. -/
def processResponse (s : EngineState) (problem : Problem) (isCorrect : Bool)
    (timeSpent : ℚ) (now : ℤ) : EngineState :=
  let s0 := { s with userResponses :=
                s.userResponses ++ [⟨problem.id, isCorrect, now, timeSpent⟩] }
  let s1 := problem.requiredTopics.foldl
              (fun st tid => setLastPracticed st tid now) s0
  let s2 := updateMasteryScores s1 problem isCorrect now
  updateRelatedTopicsMastery s2 problem isCorrect

/-- One engine interaction: everything a processResponse call takes. -/
structure Step where
  problem : Problem
  isCorrect : Bool
  timeSpent : ℚ
  timestamp : ℤ
deriving DecidableEq, Repr

/-- The engine state reached from a fresh engine by a sequence of
processResponse calls. -/
def applyResponses (steps : List Step) : EngineState :=
  steps.foldl (fun s st => processResponse s st.problem st.isCorrect st.timeSpent st.timestamp)
    initState

/-! ## Progress and readiness queries -/

/-- The record getProgress returns. -/
structure Progress where
  mastered : ℕ
  inProgress : ℕ
  notStarted : ℕ
deriving DecidableEq, Repr

/-- getProgress from gapAnalysis.ts: for each catalog topic, count it as
mastered when mastery ≥ 0.8, else as in progress when mastery > 0.3;
notStarted is the remainder. -/
def getProgress (s : EngineState) : Progress :=
  let mastered := topics.countP (fun tp => decide (thresholdEasy ≤ getTopicMastery s tp.id))
  let inProgress := topics.countP (fun tp =>
    !decide (thresholdEasy ≤ getTopicMastery s tp.id)
      && decide ((0.3 : ℚ) < getTopicMastery s tp.id))
  ⟨mastered, inProgress, topics.length - mastered - inProgress⟩

/-- The partition the specification describes for getProgress, with the
in-progress band starting strictly above 0 instead of above 0.3.  Written
from the words of the spec for comparison with getProgress. -/
def getProgressSpecClaim (s : EngineState) : Progress :=
  let mastered := topics.countP (fun tp => decide (thresholdEasy ≤ getTopicMastery s tp.id))
  let inProgress := topics.countP (fun tp =>
    !decide (thresholdEasy ≤ getTopicMastery s tp.id)
      && decide ((0 : ℚ) < getTopicMastery s tp.id))
  ⟨mastered, inProgress, topics.length - mastered - inProgress⟩

/-- An entry of TopicReadiness.missingPrerequisites. -/
structure MissingPrereq where
  topicId : String
  weight : ℚ
  requiredMastery : ℚ
  currentMastery : ℚ
  gap : ℚ
deriving DecidableEq, Repr

/-- The TopicReadiness record of gapAnalysis.ts. -/
structure TopicReadiness where
  topicId : String
  readiness : ℚ
  missingPrerequisites : List MissingPrereq
  totalReadinessImpact : ℚ
deriving DecidableEq, Repr

/-- The gap of one prerequisite edge: max(0, requiredMastery − current). -/
def gapOf (s : EngineState) (pr : Prerequisite) : ℚ :=
  max 0 (pr.requiredMastery - getTopicMastery s pr.topicId)

/-- One iteration of the analyzeTopicReadiness forEach body.  The
accumulator is (missingPrerequisites, totalWeight, weightedGapSum):
totalWeight grows on every edge, the other two only when the gap exceeds
0.05. -/
def readinessStep (s : EngineState) (acc : List MissingPrereq × ℚ × ℚ)
    (pr : Prerequisite) : List MissingPrereq × ℚ × ℚ :=
  let currentMastery := getTopicMastery s pr.topicId
  let gap := max 0 (pr.requiredMastery - currentMastery)
  let totalWeight := acc.2.1 + pr.weight
  if (0.05 : ℚ) < gap then
    (acc.1 ++ [⟨pr.topicId, pr.weight, pr.requiredMastery, currentMastery, gap⟩],
     totalWeight, acc.2.2 + gap * pr.weight)
  else
    (acc.1, totalWeight, acc.2.2)

/-- analyzeTopicReadiness from gapAnalysis.ts. -/
def analyzeTopicReadiness (s : EngineState) (topicId : String) : Option TopicReadiness :=
  match getTopicById topicId with
  | none => none
  | some topic =>
    let acc := topic.prerequisites.foldl (readinessStep s) ([], 0, 0)
    let totalReadinessImpact : ℚ := if 0 < acc.2.1 then min 1 (acc.2.2 / acc.2.1) else 0
    some ⟨topicId, 1 - totalReadinessImpact, acc.1, totalReadinessImpact⟩

/-! ## Stable sorts (JS Array.prototype.sort is stable) -/

/-- Insert into a list already sorted ascending by key, after all entries
with a smaller-or-equal key (so the overall sort is stable, like JS). -/
def insertAscBy {α β : Type} [LinearOrder β] (key : α → β) (x : α) :
    List α → List α
  | [] => [x]
  | y :: ys => if key y ≤ key x then y :: insertAscBy key x ys else x :: y :: ys

/-- Stable ascending sort by key, modelling a JS sort with comparator
`key(a) - key(b)`. -/
def sortAscBy {α β : Type} [LinearOrder β] (key : α → β) (l : List α) : List α :=
  l.foldl (fun acc x => insertAscBy key x acc) []

/-- Insert into a list already sorted descending by key, after all entries
with a greater-or-equal key (stable). -/
def insertDescBy {α β : Type} [LinearOrder β] (key : α → β) (x : α) :
    List α → List α
  | [] => [x]
  | y :: ys => if key x ≤ key y then y :: insertDescBy key x ys else x :: y :: ys

/-- Stable descending sort by key, modelling a JS sort with comparator
`key(b) - key(a)`. -/
def sortDescBy {α β : Type} [LinearOrder β] (key : α → β) (l : List α) : List α :=
  l.foldl (fun acc x => insertDescBy key x acc) []

/-! ## Review queue and topic recommendations -/

/-- getTopicsDueForReview from gapAnalysis.ts: entries of topicNextReview
whose time has passed, as (topicId, dueIn = nextReview − now), most
overdue first, capped at limit.  The JS for..in loop enumerates the record
in insertion order, which the association list preserves. -/
def getTopicsDueForReview (s : EngineState) (now : ℤ) (limit : ℕ) :
    List (String × ℤ) :=
  let dueTopics := (s.topicNextReview.filter (fun kv => decide (kv.2 ≤ now))).map
    (fun kv => (kv.1, kv.2 - now))
  (sortAscBy (fun p => p.2) dueTopics).take limit

/-- getRecommendedTopics from gapAnalysis.ts (first class in the file).
The targetTopicId parameter is declared but never read by the body.  The
presentational reason strings are not modelled; the returned topics and
their order are.  Due topics are looked up in the catalog (the source uses
a non-null assertion there). -/
def getRecommendedTopics (s : EngineState) (now : ℤ) (limit : ℕ)
    (targetTopicId : Option String) : List Topic :=
  let dueTopics := getTopicsDueForReview s now limit
  let dueMapped := dueTopics.filterMap (fun t => getTopicById t.1)
  if limit ≤ dueTopics.length then dueMapped
  else
    let topicsNeedingPractice :=
      (sortAscBy (fun tp => getTopicMastery s tp.id)
        (topics.filter (fun tp => decide (getTopicMastery s tp.id < thresholdEasy)))).take
        (limit - dueTopics.length)
    (dueMapped ++ topicsNeedingPractice).take limit

/-! ## Transitive prerequisite collection (breadth-first) -/

/-- One enqueue pass of the BFS over a topic's prerequisite edges: each id
not yet visited is appended to both the queue and the visited set. -/
def enqueuePrereqs (prereqs : List Prerequisite)
    (qv : List String × List String) : List String × List String :=
  prereqs.foldl
    (fun qv pr =>
      if pr.topicId ∈ qv.2 then qv else (qv.1 ++ [pr.topicId], qv.2 ++ [pr.topicId]))
    qv

/-- The while-loop of collectAllPrerequisiteIds, with an explicit fuel
bound.  Every id enters the queue at most once (guarded by the visited
set) and all ids come from the target plus the finitely many prerequisite
ids of the static catalog, so the loop runs far fewer than 100 iterations;
the fuel is never exhausted and the model agrees with the JS loop. -/
def bfsAux (fuel : ℕ) (queue : List String) (head : ℕ) (visited : List String) :
    List String :=
  match fuel with
  | 0 => queue
  | Nat.succ fuel' =>
    if h : head < queue.length then
      match getTopicById (queue.get ⟨head, h⟩) with
      | none => bfsAux fuel' queue (head + 1) visited
      | some topic =>
        let qv := enqueuePrereqs topic.prerequisites (queue, visited)
        bfsAux fuel' qv.1 (head + 1) qv.2
    else queue

/-- Deduplication keeping first occurrences (Array.from(new Set(..))). -/
def dedupFirst : List String → List String → List String
  | [], _ => []
  | x :: xs, seen =>
    if x ∈ seen then dedupFirst xs seen else x :: dedupFirst xs (x :: seen)

/-- collectAllPrerequisiteIds from gapAnalysis.ts: breadth-first closure of
the prerequisite graph from the target, reversed into rough dependency
order, deduplicated, with the target itself removed. -/
def collectAllPrerequisiteIds (targetTopicId : String) : List String :=
  let queue := bfsAux 100 [targetTopicId] 0 [targetTopicId]
  (dedupFirst queue.reverse []).filter (fun id => id != targetTopicId)

/-! ## Strategy scoring and greedy packing -/

/-- The three path strategies. -/
inductive Strategy where
  | fastest
  | mostThorough
  | examFocused
deriving DecidableEq, Repr

/-- The strategy id string used in the LearningPath id. -/
def strategyId : Strategy → String
  | .fastest => "fastest"
  | .mostThorough => "mostThorough"
  | .examFocused => "examFocused"

/-- A pool candidate together with its strategy score. -/
structure ScoredTopic where
  topicId : String
  topic : Topic
  score : ℚ
deriving DecidableEq, Repr

/-- The candidate scoring of generatePathByStrategy.  `readiness?.readiness
|| 0.5` treats both a null readiness and a readiness of exactly 0 as 0.5
(JS falsiness); `readiness?.totalReadinessImpact || 0` collapses to the
impact itself (0 maps to 0). -/
def scoreTopic (s : EngineState) (strategy : Strategy) (tid : String) (tp : Topic) :
    ScoredTopic :=
  let mastery := getTopicMastery s tid
  let readiness := analyzeTopicReadiness s tid
  let masteryGap := 1 - mastery
  let readinessVal : ℚ :=
    match readiness with
    | none => 0.5
    | some r => if r.readiness = 0 then 0.5 else r.readiness
  let impactVal : ℚ :=
    match readiness with
    | none => 0
    | some r => r.totalReadinessImpact
  let base := masteryGap * readinessVal
  let score :=
    match strategy with
    | .fastest => base * (readinessVal * 2) * jsOr tp.impactScore 0.5
    | .mostThorough =>
      let difficultyMultiplier : ℚ :=
        match tp.difficulty with
        | .hard => 1.5
        | .medium => 1.2
        | .easy => 1.0
      (masteryGap * (1 + impactVal)) * difficultyMultiplier
    | .examFocused =>
      let sc := masteryGap * jsOr tp.impactScore 0.5 * 2
      if (0.7 : ℚ) < mastery then sc * 0.5 else sc
  ⟨tid, tp, score⟩

/-- The prerequisite-met check of the greedy loop: mastery ≥ 0.9 or the
prerequisite is already added to the path. -/
def prereqMetB (s : EngineState) (added : List String) (pr : Prerequisite) : Bool :=
  decide ((0.9 : ℚ) ≤ getTopicMastery s pr.topicId) || decide (pr.topicId ∈ added)

/-- The greedy accumulator: the path built so far and the cumulative
estimated time.  The source also keeps a Set `allAddedTopics` whose
membership always equals that of the path list (they are pushed
together), so a single list suffices. -/
structure GreedyAcc where
  path : List String
  time : ℚ
deriving DecidableEq, Repr

/-- One iteration of the greedy selection loop: admit the candidate only
when the cumulative time including it stays within the budget and all its
prerequisites are met. -/
def greedyStep (s : EngineState) (availableTime : ℚ) (acc : GreedyAcc)
    (st : ScoredTopic) : GreedyAcc :=
  let estTime := jsOr st.topic.estimatedTime 30
  if decide (acc.time + estTime ≤ availableTime)
      && st.topic.prerequisites.all (prereqMetB s acc.path) then
    ⟨acc.path ++ [st.topicId], acc.time + estTime⟩
  else acc

/-- The candidate pool: transitive prerequisites with mastery below 0.9. -/
def topicPoolOf (s : EngineState) (tid : String) : List String :=
  (collectAllPrerequisiteIds tid).filter (fun id => decide (getTopicMastery s id < 0.9))

/-- The scored candidate pool.  In the source each pool id is resolved with
a non-null assertion; filterMap coincides with it because every pool id of
the static catalog resolves. -/
def scoredPool (s : EngineState) (strategy : Strategy) (tid : String) :
    List ScoredTopic :=
  (topicPoolOf s tid).filterMap
    (fun id => (getTopicById id).map (fun tp => scoreTopic s strategy id tp))

/-- The scored pool sorted by score descending (stable, like JS sort). -/
def sortedPool (s : EngineState) (strategy : Strategy) (tid : String) :
    List ScoredTopic :=
  sortDescBy (fun st => st.score) (scoredPool s strategy tid)

/-- The full greedy selection pass over the sorted pool. -/
def candAcc (s : EngineState) (strategy : Strategy) (tid : String) (T : ℚ) :
    GreedyAcc :=
  (sortedPool s strategy tid).foldl (greedyStep s T) ⟨[], 0⟩

/-- The (topics, estimatedTime, confidence) result of one strategy.  The
confidence is an Option: none models the JS NaN that arises when the
transitive prerequisite list is empty (0/0 inside the penalty term;
Math.min and Math.max both propagate NaN through the clamp). -/
structure PathResult where
  topics : List String
  estimatedTime : ℚ
  confidence : Option ℚ
deriving DecidableEq, Repr

/-- generatePathByStrategy from gapAnalysis.ts.  The base confidence match
mirrors the source, which initialises 0.8 and then overrides it for
mostThorough (0.95) and fastest (0.85). -/
def generatePathByStrategy (s : EngineState) (targetTopicId : String)
    (strategy : Strategy) (availableTime : ℚ) : Option PathResult :=
  match getTopicById targetTopicId with
  | none => none
  | some targetTopic =>
    let acc := candAcc s strategy targetTopicId availableTime
    let targetTime := jsOr targetTopic.estimatedTime 30
    let targetPrereqsMet := targetTopic.prerequisites.all (prereqMetB s acc.path)
    let finalPath :=
      if decide (acc.time + targetTime ≤ availableTime) && targetPrereqsMet then
        acc.path ++ [targetTopicId]
      else if targetPrereqsMet then acc.path ++ [targetTopicId]
      else acc.path
    let finalTime :=
      if decide (acc.time + targetTime ≤ availableTime) && targetPrereqsMet then
        acc.time + targetTime
      else acc.time
    let requiredPrereqIds := collectAllPrerequisiteIds targetTopicId
    let missedPrereqs := requiredPrereqIds.filter (fun id => !decide (id ∈ acc.path))
    let base : ℚ :=
      match strategy with
      | .mostThorough => 0.95
      | .fastest => 0.85
      | .examFocused => 0.8
    let confidence : Option ℚ :=
      if requiredPrereqIds.length = 0 then none
      else some (max 0.1 (min 1
        (base - ((missedPrereqs.length : ℚ) / (requiredPrereqIds.length : ℚ)) * 0.2)))
    some ⟨finalPath, finalTime, confidence⟩

/-- A generated learning path.  The presentational name and description
strings of the source are omitted; id, strategy, topics, estimatedTime and
confidence are kept. -/
structure LearningPath where
  id : String
  strategy : Strategy
  topics : List String
  estimatedTime : ℚ
  confidence : Option ℚ
deriving DecidableEq, Repr

/-- The three strategies in the order generateLearningPaths tries them. -/
def pathStrategies : List Strategy := [.fastest, .mostThorough, .examFocused]

/-- generateLearningPaths from gapAnalysis.ts: one path per strategy,
skipping strategies whose generation returns null. -/
def generateLearningPaths (s : EngineState) (targetTopicId : String)
    (availableTime : ℚ) : List LearningPath :=
  pathStrategies.filterMap (fun st =>
    (generatePathByStrategy s targetTopicId st availableTime).map (fun r =>
      { id := targetTopicId ++ "_" ++ strategyId st
      , strategy := st
      , topics := r.topics
      , estimatedTime := r.estimatedTime
      , confidence := r.confidence }))

/-! ## Spec-side vocabulary for the path theorems -/

/-- The prerequisite edges of a topic id (empty for an unknown id). -/
def prereqsOfId (id : String) : List Prerequisite :=
  match getTopicById id with
  | some tp => tp.prerequisites
  | none => []

/-- The estimated time the path generator charges for a topic id. -/
def estOfId (id : String) : ℚ :=
  match getTopicById id with
  | some tp => jsOr tp.estimatedTime 30
  | none => 30

/-- Total estimated time of a list of topic ids. -/
def sumEstIds (l : List String) : ℚ := (l.map estOfId).sum

/-- All prerequisites of the target are met with respect to a candidate
list: mastery at least 0.9 or already appearing in the list. -/
def targetMetP (s : EngineState) (tid : String) (cand : List String) : Prop :=
  ∀ pr ∈ prereqsOfId tid,
    (0.9 : ℚ) ≤ getTopicMastery s pr.topicId ∨ pr.topicId ∈ cand

instance (s : EngineState) (tid : String) (cand : List String) :
    Decidable (targetMetP s tid cand) :=
  List.decidableBAll _ _

/-! ## Helper lemmas: mastery reads across state updates -/

theorem getTopicMastery_setMastery (s : EngineState) (k : String) (v : ℚ) (u : String) :
    getTopicMastery (setMastery s k v) u = if u = k then v else getTopicMastery s u := by
  unfold getTopicMastery setMastery
  rw [show (EngineState.topicMastery { s with topicMastery := recSet s.topicMastery k v })
        = recSet s.topicMastery k v from rfl, recGet_recSet]
  split_ifs <;> rfl

@[simp] theorem getTopicMastery_setLastPracticed (s : EngineState) (k : String) (v : ℤ)
    (u : String) : getTopicMastery (setLastPracticed s k v) u = getTopicMastery s u := rfl

@[simp] theorem getTopicMastery_setNextReview (s : EngineState) (k : String) (v : ℤ)
    (u : String) : getTopicMastery (setNextReview s k v) u = getTopicMastery s u := rfl

@[simp] theorem getTopicMastery_setReviewCount (s : EngineState) (k : String) (v : ℕ)
    (u : String) : getTopicMastery (setReviewCount s k v) u = getTopicMastery s u := rfl

@[simp] theorem getTopicMastery_updateSpacedRepetitionSchedule (s : EngineState)
    (tid : String) (m : ℚ) (c : Bool) (now : ℤ) (u : String) :
    getTopicMastery (updateSpacedRepetitionSchedule s tid m c now) u = getTopicMastery s u := by
  unfold updateSpacedRepetitionSchedule
  split_ifs <;> rfl

@[simp] theorem getTopicMastery_calculateNextReview (s : EngineState) (tid : String)
    (m : ℚ) (c : Bool) (now : ℤ) (u : String) :
    getTopicMastery (calculateNextReview s tid m c now) u = getTopicMastery s u := by
  unfold calculateNextReview
  split_ifs <;> rfl

/-- The per-topic mastery update writes exactly one entry: the topic id of
the iteration gets the clamped delta, every other mastery is unchanged. -/
theorem masteryStep_mastery (c : Bool) (now : ℤ) (s : EngineState) (tid u : String) :
    getTopicMastery (masteryStep c now s tid) u
      = if u = tid
        then clamp01 (getTopicMastery s tid + (if c then 0.1 else -0.05))
        else getTopicMastery s u := by
  unfold masteryStep
  dsimp only
  rw [getTopicMastery_calculateNextReview]
  by_cases hu : u = tid
  · subst hu
    rw [if_pos rfl]
    split_ifs <;> simp [getTopicMastery_setMastery]
  · rw [if_neg hu]
    split_ifs <;> simp [getTopicMastery_setMastery, hu]

/-! ## Clamping lemmas -/

theorem clamp01_nonneg (x : ℚ) : 0 ≤ clamp01 x := le_max_left 0 _

theorem clamp01_le_one (x : ℚ) : clamp01 x ≤ 1 :=
  max_le (by norm_num) (min_le_left 1 x)

theorem le_clamp01_add (x d : ℚ) (hx : x ≤ 1) (hd : 0 ≤ d) : x ≤ clamp01 (x + d) :=
  le_trans (le_min hx (by linarith)) (le_max_right 0 _)

theorem clamp01_add_le (x d : ℚ) (hx : 0 ≤ x) (hd : d ≤ 0) : clamp01 (x + d) ≤ x :=
  max_le hx (le_trans (min_le_right 1 (x + d)) (by linarith))

/-! ## Mastery bounds and monotonicity through the update pipeline -/

/-- All mastery reads of a state lie in the unit interval. -/
def MasteryBounds (s : EngineState) : Prop :=
  ∀ u, 0 ≤ getTopicMastery s u ∧ getTopicMastery s u ≤ 1

theorem masteryStep_bounds {s : EngineState} (h : MasteryBounds s) (c : Bool)
    (now : ℤ) (tid : String) : MasteryBounds (masteryStep c now s tid) := by
  intro u
  rw [masteryStep_mastery]
  by_cases he : u = tid
  · rw [if_pos he]
    exact ⟨clamp01_nonneg _, clamp01_le_one _⟩
  · rw [if_neg he]
    exact h u

theorem masteryStep_mono_true {s : EngineState} (h : MasteryBounds s) (now : ℤ)
    (tid u : String) :
    getTopicMastery s u ≤ getTopicMastery (masteryStep true now s tid) u := by
  rw [masteryStep_mastery]
  by_cases he : u = tid
  · subst he
    rw [if_pos rfl]
    exact le_clamp01_add _ _ (h u).2 (by norm_num)
  · rw [if_neg he]

theorem masteryStep_anti_false {s : EngineState} (h : MasteryBounds s) (now : ℤ)
    (tid u : String) :
    getTopicMastery (masteryStep false now s tid) u ≤ getTopicMastery s u := by
  rw [masteryStep_mastery]
  by_cases he : u = tid
  · subst he
    rw [if_pos rfl]
    exact clamp01_add_le _ _ (h u).1 (by norm_num)
  · rw [if_neg he]

theorem foldl_masteryStep_bounds (c : Bool) (now : ℤ) :
    ∀ (l : List String) (s : EngineState), MasteryBounds s →
      MasteryBounds (l.foldl (masteryStep c now) s)
  | [], _, h => h
  | _ :: tl, s, h =>
    foldl_masteryStep_bounds c now tl _ (masteryStep_bounds h c now _)

theorem foldl_masteryStep_mono_true (now : ℤ) :
    ∀ (l : List String) (s : EngineState), MasteryBounds s → ∀ u,
      getTopicMastery s u ≤ getTopicMastery (l.foldl (masteryStep true now) s) u
  | [], _, _, _ => le_refl _
  | hd :: tl, s, h, u =>
    le_trans (masteryStep_mono_true h now hd u)
      (foldl_masteryStep_mono_true now tl _ (masteryStep_bounds h true now hd) u)

theorem foldl_masteryStep_anti_false (now : ℤ) :
    ∀ (l : List String) (s : EngineState), MasteryBounds s → ∀ u,
      getTopicMastery (l.foldl (masteryStep false now) s) u ≤ getTopicMastery s u
  | [], _, _, _ => le_refl _
  | hd :: tl, s, h, u =>
    le_trans (foldl_masteryStep_anti_false now tl _ (masteryStep_bounds h false now hd) u)
      (masteryStep_anti_false h now hd u)

/-- The related-topic update writes at most one entry: the touched id, and
only when it already has a mastery entry. -/
theorem relatedStep_mastery (d : ℚ) (s : EngineState) (tid u : String) :
    getTopicMastery (relatedStep d s tid) u
      = if u = tid ∧ (recGet s.topicMastery tid).isSome
        then clamp01 (getTopicMastery s tid + d)
        else getTopicMastery s u := by
  unfold relatedStep
  cases h : recGet s.topicMastery tid with
  | none => simp [h]
  | some v =>
    rw [getTopicMastery_setMastery]
    split_ifs with h1 h2 h2 <;> simp_all

theorem relatedStep_bounds {s : EngineState} (h : MasteryBounds s) (d : ℚ)
    (tid : String) : MasteryBounds (relatedStep d s tid) := by
  intro u
  rw [relatedStep_mastery]
  split_ifs
  · exact ⟨clamp01_nonneg _, clamp01_le_one _⟩
  · exact h u

theorem relatedStep_mono {s : EngineState} (h : MasteryBounds s) {d : ℚ}
    (hd : 0 ≤ d) (tid u : String) :
    getTopicMastery s u ≤ getTopicMastery (relatedStep d s tid) u := by
  rw [relatedStep_mastery]
  split_ifs with he
  · rw [he.1]
    exact le_clamp01_add _ _ (h tid).2 hd
  · exact le_refl _

theorem relatedStep_anti {s : EngineState} (h : MasteryBounds s) {d : ℚ}
    (hd : d ≤ 0) (tid u : String) :
    getTopicMastery (relatedStep d s tid) u ≤ getTopicMastery s u := by
  rw [relatedStep_mastery]
  split_ifs with he
  · rw [he.1]
    exact clamp01_add_le _ _ (h tid).1 hd
  · exact le_refl _

theorem foldl_relatedStep_bounds (d : ℚ) :
    ∀ (l : List String) (s : EngineState), MasteryBounds s →
      MasteryBounds (l.foldl (relatedStep d) s)
  | [], _, h => h
  | _ :: tl, s, h => foldl_relatedStep_bounds d tl _ (relatedStep_bounds h d _)

theorem foldl_relatedStep_mono {d : ℚ} (hd : 0 ≤ d) :
    ∀ (l : List String) (s : EngineState), MasteryBounds s → ∀ u,
      getTopicMastery s u ≤ getTopicMastery (l.foldl (relatedStep d) s) u
  | [], _, _, _ => le_refl _
  | hd' :: tl, s, h, u =>
    le_trans (relatedStep_mono h hd hd' u)
      (foldl_relatedStep_mono hd tl _ (relatedStep_bounds h d hd') u)

theorem foldl_relatedStep_anti {d : ℚ} (hd : d ≤ 0) :
    ∀ (l : List String) (s : EngineState), MasteryBounds s → ∀ u,
      getTopicMastery (l.foldl (relatedStep d) s) u ≤ getTopicMastery s u
  | [], _, _, _ => le_refl _
  | hd' :: tl, s, h, u =>
    le_trans (foldl_relatedStep_anti hd tl _ (relatedStep_bounds h d hd') u)
      (relatedStep_anti h hd hd' u)

/-- Stamping lastPracticed for a list of topics never changes mastery. -/
theorem foldl_setLastPracticed_mastery (now : ℤ) :
    ∀ (l : List String) (s : EngineState) (u : String),
      getTopicMastery (l.foldl (fun st tid => setLastPracticed st tid now) s) u
        = getTopicMastery s u
  | [], _, _ => rfl
  | _ :: tl, s, u => foldl_setLastPracticed_mastery now tl _ u

theorem processResponse_bounds {s : EngineState} (h : MasteryBounds s)
    (p : Problem) (c : Bool) (ts : ℚ) (now : ℤ) :
    MasteryBounds (processResponse s p c ts now) := by
  unfold processResponse updateMasteryScores updateRelatedTopicsMastery
  dsimp only
  apply foldl_relatedStep_bounds
  apply foldl_masteryStep_bounds
  intro u
  rw [foldl_setLastPracticed_mastery]
  exact h u

theorem processResponse_mono_true {s : EngineState} (h : MasteryBounds s)
    (p : Problem) (ts : ℚ) (now : ℤ) (u : String) :
    getTopicMastery s u ≤ getTopicMastery (processResponse s p true ts now) u := by
  unfold processResponse updateMasteryScores updateRelatedTopicsMastery
  dsimp only
  have hlast : MasteryBounds (p.requiredTopics.foldl (fun st tid => setLastPracticed st tid now)
      { s with userResponses := s.userResponses ++ [⟨p.id, true, now, ts⟩] }) := by
    intro v
    rw [foldl_setLastPracticed_mastery]
    exact h v
  have hmf : MasteryBounds (p.requiredTopics.foldl (masteryStep true now)
      (p.requiredTopics.foldl (fun st tid => setLastPracticed st tid now)
        { s with userResponses := s.userResponses ++ [⟨p.id, true, now, ts⟩] })) :=
    foldl_masteryStep_bounds true now _ _ hlast
  have step1 : getTopicMastery s u ≤ getTopicMastery
      (p.requiredTopics.foldl (fun st tid => setLastPracticed st tid now)
        { s with userResponses := s.userResponses ++ [⟨p.id, true, now, ts⟩] }) u := by
    rw [foldl_setLastPracticed_mastery]
    exact le_refl _
  have step2 := foldl_masteryStep_mono_true now p.requiredTopics _ hlast u
  have step3 := foldl_relatedStep_mono
    (show (0:ℚ) ≤ if true then 0.02 else -0.01 by norm_num) p.relatedTopics _ hmf u
  exact le_trans step1 (le_trans step2 step3)

theorem processResponse_anti_false {s : EngineState} (h : MasteryBounds s)
    (p : Problem) (ts : ℚ) (now : ℤ) (u : String) :
    getTopicMastery (processResponse s p false ts now) u ≤ getTopicMastery s u := by
  unfold processResponse updateMasteryScores updateRelatedTopicsMastery
  dsimp only
  have hlast : MasteryBounds (p.requiredTopics.foldl (fun st tid => setLastPracticed st tid now)
      { s with userResponses := s.userResponses ++ [⟨p.id, false, now, ts⟩] }) := by
    intro v
    rw [foldl_setLastPracticed_mastery]
    exact h v
  have hmf : MasteryBounds (p.requiredTopics.foldl (masteryStep false now)
      (p.requiredTopics.foldl (fun st tid => setLastPracticed st tid now)
        { s with userResponses := s.userResponses ++ [⟨p.id, false, now, ts⟩] })) :=
    foldl_masteryStep_bounds false now _ _ hlast
  have step1 : getTopicMastery
      (p.requiredTopics.foldl (fun st tid => setLastPracticed st tid now)
        { s with userResponses := s.userResponses ++ [⟨p.id, false, now, ts⟩] }) u
      ≤ getTopicMastery s u := by
    rw [foldl_setLastPracticed_mastery]
    exact le_refl _
  have step2 := foldl_masteryStep_anti_false now p.requiredTopics _ hlast u
  have step3 := foldl_relatedStep_anti
    (show (if false then (0.02:ℚ) else -0.01) ≤ 0 by norm_num) p.relatedTopics _ hmf u
  exact le_trans step3 (le_trans step2 step1)

/-! ## The fresh engine and reachable states -/

theorem recGet_mem_values {α : Type} :
    ∀ (m : List (String × α)) (u : String) (v : α),
      recGet m u = some v → v ∈ m.map Prod.snd
  | [], _, _, h => by simp [recGet] at h
  | (k', v') :: rest, u, v, h => by
    by_cases hk : k' = u
    · simp [recGet, hk] at h
      simp [h]
    · simp [recGet, hk] at h
      simp [recGet_mem_values rest u v h]

theorem initState_mastery_values :
    ∀ v ∈ initState.topicMastery.map Prod.snd, v = (0 : ℚ) := by decide

theorem getTopicMastery_initState (u : String) : getTopicMastery initState u = 0 := by
  unfold getTopicMastery
  cases h : recGet initState.topicMastery u with
  | none => rfl
  | some v =>
    have := initState_mastery_values v (recGet_mem_values _ _ _ h)
    simp [this]

theorem initState_bounds : MasteryBounds initState := by
  intro u
  rw [getTopicMastery_initState]
  norm_num

theorem applyResponses_bounds (steps : List Step) :
    MasteryBounds (applyResponses steps) := by
  unfold applyResponses
  have aux : ∀ (l : List Step) (s : EngineState), MasteryBounds s →
      MasteryBounds (l.foldl
        (fun s st => processResponse s st.problem st.isCorrect st.timeSpent st.timestamp) s) := by
    intro l
    induction l with
    | nil => exact fun _ h => h
    | cons hd tl ih => exact fun s h => ih _ (processResponse_bounds h _ _ _ _)
  exact aux steps initState initState_bounds

/-! ## Exact mastery-update formula for a single required topic -/

theorem foldl_masteryStep_not_mem (c : Bool) (now : ℤ) :
    ∀ (l : List String) (s : EngineState) (t : String), t ∉ l →
      getTopicMastery (l.foldl (masteryStep c now) s) t = getTopicMastery s t
  | [], _, _, _ => rfl
  | hd :: tl, s, t, h => by
    have hne : t ≠ hd := fun he => h (he ▸ List.mem_cons_self hd tl)
    have htl : t ∉ tl := fun he => h (List.mem_cons_of_mem hd he)
    rw [List.foldl_cons, foldl_masteryStep_not_mem c now tl _ t htl,
      masteryStep_mastery, if_neg hne]

theorem foldl_masteryStep_count_one (c : Bool) (now : ℤ) :
    ∀ (l : List String) (s : EngineState) (t : String), l.count t = 1 →
      getTopicMastery (l.foldl (masteryStep c now) s) t
        = clamp01 (getTopicMastery s t + (if c then 0.1 else -0.05))
  | [], _, _, h => by simp at h
  | hd :: tl, s, t, h => by
    rw [List.foldl_cons]
    by_cases he : hd = t
    · subst he
      have htl : tl.count hd = 0 := by
        rw [List.count_cons_self] at h
        omega
      have hnm : hd ∉ tl := by
        rw [← List.count_pos_iff_mem]
        omega
      rw [foldl_masteryStep_not_mem c now tl _ hd hnm, masteryStep_mastery, if_pos rfl]
    · have htl : tl.count t = 1 := by
        rw [List.count_cons_of_ne (fun hc => he hc.symm)] at h
        exact h
      rw [foldl_masteryStep_count_one c now tl _ t htl, masteryStep_mastery,
        if_neg (fun hc => he hc.symm)]

theorem foldl_relatedStep_not_mem (d : ℚ) :
    ∀ (l : List String) (s : EngineState) (t : String), t ∉ l →
      getTopicMastery (l.foldl (relatedStep d) s) t = getTopicMastery s t
  | [], _, _, _ => rfl
  | hd :: tl, s, t, h => by
    have hne : t ≠ hd := fun he => h (he ▸ List.mem_cons_self hd tl)
    have htl : t ∉ tl := fun he => h (List.mem_cons_of_mem hd he)
    rw [List.foldl_cons, foldl_relatedStep_not_mem d tl _ t htl, relatedStep_mastery]
    split_ifs with hc
    · exact absurd hc.1 hne
    · rfl

/-! ## Claim theorems -/

/-- Claim C1: for every topic id and every finite sequence of
processResponse calls applied to a freshly constructed engine,
getTopicMastery returns a value in the unit interval. -/
theorem C1_getTopicMastery_in_unit_interval (steps : List Step) (t : String) :
    0 ≤ getTopicMastery (applyResponses steps) t
      ∧ getTopicMastery (applyResponses steps) t ≤ 1 :=
  applyResponses_bounds steps t

/-- Claim C5: in every reachable engine state, a correct response never
decreases the mastery of a required topic of the problem, and an incorrect
response never increases it. -/
theorem C5_mastery_monotonicity (steps : List Step) (p : Problem) (t : String)
    (ts : ℚ) (now : ℤ) (ht : t ∈ p.requiredTopics) :
    getTopicMastery (applyResponses steps) t
        ≤ getTopicMastery (processResponse (applyResponses steps) p true ts now) t
      ∧ getTopicMastery (processResponse (applyResponses steps) p false ts now) t
        ≤ getTopicMastery (applyResponses steps) t :=
  ⟨processResponse_mono_true (applyResponses_bounds steps) p ts now t,
   processResponse_anti_false (applyResponses_bounds steps) p ts now t⟩

/-- Witness for C5 at a concrete input: the fresh engine, problem add1 and
its required topic basic_arithmetic. -/
theorem C5_mastery_monotonicity_witness :
    getTopicMastery (applyResponses []) "basic_arithmetic"
        ≤ getTopicMastery (processResponse (applyResponses []) add1 true 10 0)
            "basic_arithmetic"
      ∧ getTopicMastery (processResponse (applyResponses []) add1 false 10 0)
            "basic_arithmetic"
        ≤ getTopicMastery (applyResponses []) "basic_arithmetic" :=
  C5_mastery_monotonicity [] add1 "basic_arithmetic" 10 0 (by decide)

/-- Claim C8 counterexample: a problem whose required topic id is not in
the catalog is not a no-op — after a correct response the mastery entry is
created and getTopicMastery reports 0.1, not 0. -/
theorem C8_counterexample_unknown_topic_mastery :
    getTopicById "mystery_topic" = none
      ∧ getTopicMastery initState "mystery_topic" = 0
      ∧ getTopicMastery
          (processResponse initState ⟨"mystery_problem", ["mystery_topic"], .easy, []⟩
            true 5 7) "mystery_topic" = 0.1
      ∧ (0.1 : ℚ) ≠ 0 := by
  refine ⟨by decide, by decide, by decide, by norm_num⟩

/-- Claim C8 amended: processResponse treats a required topic id that is
not in the catalog exactly like a known one — the mastery entry is created
on demand and updated by the clamped delta (and lastPracticed is stamped);
only unknown ids in relatedTopics are skipped.  For any state, any problem
and any topic occurring exactly once in requiredTopics and not in
relatedTopics, the new mastery is clamp01(old + delta). -/
theorem C8_amended_required_topic_update (s : EngineState) (p : Problem) (c : Bool)
    (ts : ℚ) (now : ℤ) (t : String) (h1 : p.requiredTopics.count t = 1)
    (h2 : t ∉ p.relatedTopics) :
    getTopicMastery (processResponse s p c ts now) t
      = clamp01 (getTopicMastery s t + (if c then 0.1 else -0.05)) := by
  unfold processResponse updateMasteryScores updateRelatedTopicsMastery
  dsimp only
  rw [foldl_relatedStep_not_mem _ _ _ _ h2,
    foldl_masteryStep_count_one c now _ _ _ h1,
    foldl_setLastPracticed_mastery]
  rfl

/-- Witness for C8 amended: explicit evaluation at the unknown topic id
mystery_topic on the fresh engine. -/
theorem C8_amended_required_topic_update_witness :
    getTopicMastery
        (processResponse initState ⟨"mystery_problem", ["mystery_topic"], .easy, []⟩
          true 3 0) "mystery_topic" = 0.1 := by
  have h := C8_amended_required_topic_update initState
    ⟨"mystery_problem", ["mystery_topic"], .easy, []⟩ true 3 0 "mystery_topic"
    (by decide) (by decide)
  rw [h]
  decide

/-! ## Progress partition (C2) -/

theorem countP_mastery_tri (l : List Topic) (s : EngineState) :
    l.countP (fun tp => decide (thresholdEasy ≤ getTopicMastery s tp.id))
      + l.countP (fun tp => !decide (thresholdEasy ≤ getTopicMastery s tp.id)
          && decide ((0.3 : ℚ) < getTopicMastery s tp.id))
      + l.countP (fun tp => decide (getTopicMastery s tp.id ≤ 0.3)) = l.length := by
  induction l with
  | nil => rfl
  | cons hd tl ih =>
    rw [List.countP_cons, List.countP_cons, List.countP_cons, List.length_cons]
    rcases le_or_lt thresholdEasy (getTopicMastery s hd.id) with h1 | h1
    · have hd1 : decide (thresholdEasy ≤ getTopicMastery s hd.id) = true := decide_eq_true h1
      have hd3 : decide (getTopicMastery s hd.id ≤ (0.3 : ℚ)) = false := by
        simp only [decide_eq_false_iff_not, not_le]
        have : thresholdEasy = (0.8 : ℚ) := rfl
        rw [this] at h1
        linarith
      simp only [hd1, hd3, Bool.not_true, Bool.false_and, if_true, if_false,
        Bool.false_eq_true]
      omega
    · rcases le_or_lt (getTopicMastery s hd.id) (0.3 : ℚ) with h2 | h2
      · have hd1 : decide (thresholdEasy ≤ getTopicMastery s hd.id) = false := by
          simp [not_le.mpr h1]
        have hd2 : decide ((0.3 : ℚ) < getTopicMastery s hd.id) = false := by
          simp [not_lt.mpr h2]
        have hd3 : decide (getTopicMastery s hd.id ≤ (0.3 : ℚ)) = true := decide_eq_true h2
        simp only [hd1, hd2, hd3, Bool.not_false, Bool.true_and, if_true, if_false,
          Bool.false_eq_true]
        omega
      · have hd1 : decide (thresholdEasy ≤ getTopicMastery s hd.id) = false := by
          simp [not_le.mpr h1]
        have hd2 : decide ((0.3 : ℚ) < getTopicMastery s hd.id) = true := decide_eq_true h2
        have hd3 : decide (getTopicMastery s hd.id ≤ (0.3 : ℚ)) = false := by
          simp [not_le.mpr h2]
        simp only [hd1, hd2, hd3, Bool.not_false, Bool.true_and, if_true, if_false,
          Bool.false_eq_true]
        omega

/-- Claim C2 counterexample: after one correct response to add1, topic
basic_arithmetic has mastery 0.1, which is strictly between 0 and 0.8, yet
getProgress counts it as notStarted (inProgress = 0) because the code uses
the threshold 0.3, not 0 as the claim states: the partition the claim
describes (getProgressSpecClaim) disagrees with the code. -/
theorem C2_counterexample_inProgress_threshold :
    getTopicMastery (applyResponses [⟨add1, true, 10, 1000⟩]) "basic_arithmetic" = 0.1
      ∧ (0 : ℚ) < 0.1 ∧ (0.1 : ℚ) < 0.8
      ∧ getProgress (applyResponses [⟨add1, true, 10, 1000⟩]) = ⟨0, 0, 6⟩
      ∧ getProgressSpecClaim (applyResponses [⟨add1, true, 10, 1000⟩]) = ⟨0, 1, 5⟩
      ∧ getProgress (applyResponses [⟨add1, true, 10, 1000⟩])
          ≠ getProgressSpecClaim (applyResponses [⟨add1, true, 10, 1000⟩]) :=
  ⟨by decide, by norm_num, by norm_num, by decide, by decide, by decide⟩

/-- Claim C2 amended: getProgress partitions the catalog with mastered =
mastery ≥ 0.8, inProgress = mastery strictly between 0.3 and 0.8 (the
lower threshold is 0.3, not 0), notStarted = mastery ≤ 0.3, and the three
counts always sum to the number of catalog topics. -/
theorem C2_amended_progress_partition (s : EngineState) :
    (getProgress s).mastered
        = topics.countP (fun tp => decide (thresholdEasy ≤ getTopicMastery s tp.id))
      ∧ (getProgress s).inProgress
        = topics.countP (fun tp => !decide (thresholdEasy ≤ getTopicMastery s tp.id)
            && decide ((0.3 : ℚ) < getTopicMastery s tp.id))
      ∧ (getProgress s).notStarted
        = topics.countP (fun tp => decide (getTopicMastery s tp.id ≤ 0.3))
      ∧ (getProgress s).mastered + (getProgress s).inProgress + (getProgress s).notStarted
        = topics.length := by
  have tri := countP_mastery_tri topics s
  have e1 : (getProgress s).mastered
      = topics.countP (fun tp => decide (thresholdEasy ≤ getTopicMastery s tp.id)) := rfl
  have e2 : (getProgress s).inProgress
      = topics.countP (fun tp => !decide (thresholdEasy ≤ getTopicMastery s tp.id)
          && decide ((0.3 : ℚ) < getTopicMastery s tp.id)) := rfl
  have e3 : (getProgress s).notStarted
      = topics.length
        - topics.countP (fun tp => decide (thresholdEasy ≤ getTopicMastery s tp.id))
        - topics.countP (fun tp => !decide (thresholdEasy ≤ getTopicMastery s tp.id)
            && decide ((0.3 : ℚ) < getTopicMastery s tp.id)) := rfl
  refine ⟨e1, e2, ?_, ?_⟩
  · rw [e3]
    omega
  · rw [e1, e2, e3]
    omega

/-! ## Readiness characterization (C3, C4) -/

theorem readinessStep_foldl (s : EngineState) :
    ∀ (l : List Prerequisite) (accL : List MissingPrereq) (accW accG : ℚ),
      l.foldl (readinessStep s) (accL, accW, accG)
        = (accL ++ (l.filter (fun pr => decide ((0.05 : ℚ) < gapOf s pr))).map
              (fun pr => ⟨pr.topicId, pr.weight, pr.requiredMastery,
                getTopicMastery s pr.topicId, gapOf s pr⟩),
           accW + (l.map (fun pr => pr.weight)).sum,
           accG + ((l.filter (fun pr => decide ((0.05 : ℚ) < gapOf s pr))).map
              (fun pr => gapOf s pr * pr.weight)).sum)
  | [], accL, accW, accG => by simp
  | hd :: tl, accL, accW, accG => by
    rw [List.foldl_cons]
    have hgap : max 0 (hd.requiredMastery - getTopicMastery s hd.topicId) = gapOf s hd := rfl
    by_cases h : (0.05 : ℚ) < gapOf s hd
    · have hstep : readinessStep s (accL, accW, accG) hd
          = (accL ++ [⟨hd.topicId, hd.weight, hd.requiredMastery,
                getTopicMastery s hd.topicId, gapOf s hd⟩],
             accW + hd.weight, accG + gapOf s hd * hd.weight) := by
        unfold readinessStep
        dsimp only
        rw [hgap, if_pos h]
      rw [hstep, readinessStep_foldl s tl]
      have hfil : (hd :: tl).filter (fun pr => decide ((0.05 : ℚ) < gapOf s pr))
          = hd :: tl.filter (fun pr => decide ((0.05 : ℚ) < gapOf s pr)) := by
        simp [List.filter_cons, h]
      rw [hfil, Prod.ext_iff, Prod.ext_iff]
      refine ⟨?_, ?_, ?_⟩
      · simp
      · simp [add_assoc]
      · simp [add_assoc]
    · have hstep : readinessStep s (accL, accW, accG) hd
          = (accL, accW + hd.weight, accG) := by
        unfold readinessStep
        dsimp only
        rw [hgap, if_neg h]
      rw [hstep, readinessStep_foldl s tl]
      have hfil : (hd :: tl).filter (fun pr => decide ((0.05 : ℚ) < gapOf s pr))
          = tl.filter (fun pr => decide ((0.05 : ℚ) < gapOf s pr)) := by
        simp [List.filter_cons, h]
      rw [hfil, Prod.ext_iff, Prod.ext_iff]
      refine ⟨rfl, ?_, rfl⟩
      simp [add_assoc]

/-- Claim C3: analyzeTopicReadiness returns null exactly for ids outside
the catalog; for a catalog topic it returns the record whose totalWeight
is the sum of all prerequisite weights, whose missingPrerequisites and
weighted gap sum collect only the edges with gap above 0.05, with
totalReadinessImpact = min(1, weightedGapSum / totalWeight) when the total
weight is positive and 0 otherwise, and readiness = 1 − impact. -/
theorem C3_analyzeTopicReadiness_characterization (s : EngineState) (t : String) :
    (analyzeTopicReadiness s t = none ↔ getTopicById t = none)
      ∧ ∀ tp, getTopicById t = some tp →
          analyzeTopicReadiness s t = some
            { topicId := t
            , readiness := 1 - (if 0 < (tp.prerequisites.map (fun pr => pr.weight)).sum
                then min 1 (((tp.prerequisites.filter
                      (fun pr => decide ((0.05 : ℚ) < gapOf s pr))).map
                      (fun pr => gapOf s pr * pr.weight)).sum
                    / (tp.prerequisites.map (fun pr => pr.weight)).sum)
                else 0)
            , missingPrerequisites := (tp.prerequisites.filter
                (fun pr => decide ((0.05 : ℚ) < gapOf s pr))).map
                (fun pr => ⟨pr.topicId, pr.weight, pr.requiredMastery,
                  getTopicMastery s pr.topicId, gapOf s pr⟩)
            , totalReadinessImpact := if 0 < (tp.prerequisites.map (fun pr => pr.weight)).sum
                then min 1 (((tp.prerequisites.filter
                      (fun pr => decide ((0.05 : ℚ) < gapOf s pr))).map
                      (fun pr => gapOf s pr * pr.weight)).sum
                    / (tp.prerequisites.map (fun pr => pr.weight)).sum)
                else 0 } := by
  constructor
  · unfold analyzeTopicReadiness
    cases h : getTopicById t <;> simp [h]
  · intro tp h
    unfold analyzeTopicReadiness
    rw [h]
    dsimp only
    rw [readinessStep_foldl]
    simp

/-- Witness for C3: explicit readiness record of basic_algebra on the
fresh engine, obtained by instantiating the characterization. -/
theorem C3_analyzeTopicReadiness_characterization_witness :
    analyzeTopicReadiness initState "basic_algebra" = some
      { topicId := "basic_algebra"
      , readiness := 23/80
      , missingPrerequisites :=
          [⟨"basic_arithmetic", 0.9, 0.8, 0, 0.8⟩, ⟨"fractions", 0.7, 0.6, 0, 0.6⟩]
      , totalReadinessImpact := 57/80 } := by
  have h := (C3_analyzeTopicReadiness_characterization initState "basic_algebra").2
    topic_basic_algebra (by decide)
  rw [h]
  decide

/-- Claim C4 counterexample: in the claimed scenario (topic fractions
requires basic_arithmetic with weight 0.8 and required mastery 0.7, both
at mastery 0) the readiness is 0.3, not 0 as the claim states. -/
theorem C4_counterexample_readiness_not_zero :
    (analyzeTopicReadiness initState "fractions").map (fun r => r.readiness) = some 0.3
      ∧ (0.3 : ℚ) ≠ 0 :=
  ⟨by decide, by norm_num⟩

/-- Claim C4 amended: in the scenario of the claim,
analyzeTopicReadiness of fractions returns the missing prerequisite entry
exactly as claimed (gap 0.7), but readiness = 0.3 = 1 − 0.56/0.8 (the
normalized weighted gap is 0.7, not 1). -/
theorem C4_amended_fractions_readiness :
    analyzeTopicReadiness initState "fractions" = some
      { topicId := "fractions"
      , readiness := 0.3
      , missingPrerequisites := [⟨"basic_arithmetic", 0.8, 0.7, 0, 0.7⟩]
      , totalReadinessImpact := 0.7 } := by decide

/-! ## Topic recommendations (C9) -/

/-- A state after three correct add1 responses: basic_arithmetic has
mastery 0.3, everything else 0, and the only scheduled review is in the
future. -/
def s9 : EngineState := applyResponses
  [⟨add1, true, 10, 1000000⟩, ⟨add1, true, 10, 1000000⟩, ⟨add1, true, 10, 1000000⟩]

set_option maxRecDepth 4000 in
/-- Claim C9 counterexample: with target basic_algebra, the top missing
prerequisite by weight × gap is basic_arithmetic (0.9 × 0.5 = 0.45 beats
fractions at 0.7 × 0.6 = 0.42), yet getRecommendedTopics(1, basic_algebra)
returns fractions — the target argument is ignored and the fallback
(lowest mastery first) wins. -/
theorem C9_counterexample_target_ignored :
    (analyzeTopicReadiness s9 "basic_algebra").map
        (fun r => ((sortDescBy (fun mp => mp.weight * mp.gap) r.missingPrerequisites).take 1).map
          (fun mp => mp.topicId)) = some ["basic_arithmetic"]
      ∧ (getRecommendedTopics s9 1000000 1 (some "basic_algebra")).map (fun tp => tp.id)
          = ["fractions"]
      ∧ ("fractions" : String) ≠ "basic_arithmetic" :=
  ⟨by decide, by decide, by decide⟩

/-- Claim C9 amended: getRecommendedTopics never reads its targetTopicId
argument; for every state, query time, limit and target it returns exactly
the same list as the call with no target (topics due for review, topped up
with the lowest-mastery unmastered topics). -/
theorem C9_amended_target_independent (s : EngineState) (now : ℤ) (limit : ℕ)
    (t : String) :
    getRecommendedTopics s now limit (some t) = getRecommendedTopics s now limit none := rfl

/-! ## Sort membership -/

theorem mem_insertDescBy {α β : Type} [LinearOrder β] (key : α → β) (x a : α) :
    ∀ (l : List α), a ∈ insertDescBy key x l ↔ a = x ∨ a ∈ l
  | [] => by simp [insertDescBy]
  | y :: ys => by
    unfold insertDescBy
    split_ifs with h
    · simp only [List.mem_cons, mem_insertDescBy key x a ys]
      tauto
    · simp [List.mem_cons]

theorem mem_sortDescBy {α β : Type} [LinearOrder β] (key : α → β) (a : α) (l : List α) :
    a ∈ sortDescBy key l → a ∈ l := by
  have aux : ∀ (l' : List α) (acc : List α),
      a ∈ l'.foldl (fun acc x => insertDescBy key x acc) acc → a ∈ acc ∨ a ∈ l' := by
    intro l'
    induction l' with
    | nil => exact fun acc h => Or.inl h
    | cons hd tl ih =>
      intro acc h
      rcases ih (insertDescBy key hd acc) h with h' | h'
      · rcases (mem_insertDescBy key hd a acc).1 h' with h'' | h''
        · exact Or.inr (h'' ▸ List.mem_cons_self hd tl)
        · exact Or.inl h''
      · exact Or.inr (List.mem_cons_of_mem hd h')
  intro h
  rcases aux l [] h with h' | h'
  · simp at h'
  · exact h'

/-! ## Pool and estimate facts -/

theorem mem_collectAllPrerequisiteIds_ne {x tid : String}
    (h : x ∈ collectAllPrerequisiteIds tid) : x ≠ tid := by
  unfold collectAllPrerequisiteIds at h
  dsimp only at h
  rw [List.mem_filter] at h
  exact bne_iff_ne.1 h.2

theorem mem_topicPoolOf {s : EngineState} {tid x : String}
    (h : x ∈ topicPoolOf s tid) :
    x ∈ collectAllPrerequisiteIds tid ∧ getTopicMastery s x < 0.9 := by
  unfold topicPoolOf at h
  rw [List.mem_filter] at h
  exact ⟨h.1, of_decide_eq_true h.2⟩

theorem topicPoolOf_ne_target {s : EngineState} {tid x : String}
    (h : x ∈ topicPoolOf s tid) : x ≠ tid :=
  mem_collectAllPrerequisiteIds_ne (mem_topicPoolOf h).1

theorem catalog_est_nonneg : ∀ tp ∈ topics, 0 ≤ jsOr tp.estimatedTime 30 := by decide

theorem getTopicById_mem {id : String} {tp : Topic} (h : getTopicById id = some tp) :
    tp ∈ topics := List.mem_of_find?_eq_some h

theorem estOfId_nonneg (id : String) : 0 ≤ estOfId id := by
  unfold estOfId
  cases h : getTopicById id with
  | none => norm_num
  | some tp => exact catalog_est_nonneg tp (getTopicById_mem h)

theorem estOfId_of_lookup {id : String} {tp : Topic} (h : getTopicById id = some tp) :
    estOfId id = jsOr tp.estimatedTime 30 := by
  unfold estOfId
  rw [h]

theorem prereqsOfId_of_lookup {id : String} {tp : Topic} (h : getTopicById id = some tp) :
    prereqsOfId id = tp.prerequisites := by
  unfold prereqsOfId
  rw [h]

theorem sumEstIds_append (l1 l2 : List String) :
    sumEstIds (l1 ++ l2) = sumEstIds l1 + sumEstIds l2 := by
  unfold sumEstIds
  rw [List.map_append, List.sum_append]

theorem sumEstIds_singleton (x : String) : sumEstIds [x] = estOfId x := by
  unfold sumEstIds
  simp

theorem all_prereqMetB_iff (s : EngineState) (added : List String) (l : List Prerequisite) :
    l.all (prereqMetB s added) = true
      ↔ ∀ pr ∈ l, (0.9 : ℚ) ≤ getTopicMastery s pr.topicId ∨ pr.topicId ∈ added := by
  simp [List.all_eq_true, prereqMetB, Bool.or_eq_true, decide_eq_true_eq]

/-! ## Greedy selection invariant -/

/-- The invariant the greedy loop maintains: the accumulator time is the
total estimated time of the path, every prefix of the path fits the
budget, every path entry had all its prerequisites mastered (≥ 0.9) or
scheduled earlier, and every entry comes from the candidate pool with an
affordable estimate. -/
def GoodAcc (s : EngineState) (T : ℚ) (pool : List String) (acc : GreedyAcc) : Prop :=
  acc.time = sumEstIds acc.path ∧
  0 ≤ acc.time ∧
  (∀ i, i < acc.path.length → sumEstIds (acc.path.take (i + 1)) ≤ T) ∧
  (∀ i (hi : i < acc.path.length), ∀ pr ∈ prereqsOfId (acc.path.get ⟨i, hi⟩),
      (0.9 : ℚ) ≤ getTopicMastery s pr.topicId ∨ pr.topicId ∈ acc.path.take i) ∧
  (∀ x ∈ acc.path, x ∈ pool ∧ estOfId x ≤ T)

theorem greedyStep_good {s : EngineState} {T : ℚ} {pool : List String} {acc : GreedyAcc}
    {st : ScoredTopic} (hQ : getTopicById st.topicId = some st.topic ∧ st.topicId ∈ pool)
    (h : GoodAcc s T pool acc) : GoodAcc s T pool (greedyStep s T acc st) := by
  unfold greedyStep
  dsimp only
  by_cases hc : (decide (acc.time + jsOr st.topic.estimatedTime 30 ≤ T)
      && st.topic.prerequisites.all (prereqMetB s acc.path)) = true
  · rw [if_pos hc]
    rw [Bool.and_eq_true] at hc
    obtain ⟨hc1, hc2⟩ := hc
    have htime : acc.time + jsOr st.topic.estimatedTime 30 ≤ T := of_decide_eq_true hc1
    have hmet := (all_prereqMetB_iff s acc.path st.topic.prerequisites).1 hc2
    have hest : estOfId st.topicId = jsOr st.topic.estimatedTime 30 := estOfId_of_lookup hQ.1
    obtain ⟨ht, hnn, hpre, hord, hmem⟩ := h
    have hestnn : 0 ≤ jsOr st.topic.estimatedTime 30 := hest ▸ estOfId_nonneg st.topicId
    refine ⟨?_, ?_, ?_, ?_, ?_⟩
    · dsimp only
      rw [sumEstIds_append, sumEstIds_singleton, hest, ht]
    · dsimp only
      linarith
    · intro i hi
      dsimp only at hi ⊢
      rw [List.length_append, List.length_singleton] at hi
      rcases Nat.lt_succ_iff_lt_or_eq.1 hi with hlt | heq
      · rw [List.take_append_of_le_length (by omega)]
        exact hpre i hlt
      · rw [show i + 1 = (acc.path ++ [st.topicId]).length by simp [heq], List.take_length,
          sumEstIds_append, sumEstIds_singleton, hest, ← ht]
        exact htime
    · intro i hi pr hpr
      dsimp only at hi hpr ⊢
      have hlen : (acc.path ++ [st.topicId]).length = acc.path.length + 1 := by simp
      rcases Nat.lt_succ_iff_lt_or_eq.1 (hlen ▸ hi) with hlt | heq
      · have hget : (acc.path ++ [st.topicId]).get ⟨i, hi⟩ = acc.path.get ⟨i, hlt⟩ :=
          List.get_append i hlt
        rw [hget] at hpr
        have hres := hord i hlt pr hpr
        rwa [List.take_append_of_le_length (le_of_lt hlt)]
      · subst heq
        have hget : (acc.path ++ [st.topicId]).get ⟨acc.path.length, hi⟩ = st.topicId := by
          rw [List.get_eq_getElem, List.getElem_append_right (le_refl acc.path.length)]
          simp
        rw [hget, prereqsOfId_of_lookup hQ.1] at hpr
        have hres := hmet pr hpr
        rwa [List.take_left]
    · intro x hx
      dsimp only at hx
      rcases List.mem_append.1 hx with hx | hx
      · exact hmem x hx
      · rw [List.mem_singleton] at hx
        subst hx
        refine ⟨hQ.2, ?_⟩
        rw [hest]
        linarith
  · rw [if_neg hc]
    exact h

theorem foldl_greedyStep_good {s : EngineState} {T : ℚ} {pool : List String} :
    ∀ (l : List ScoredTopic) (acc : GreedyAcc),
      (∀ st ∈ l, getTopicById st.topicId = some st.topic ∧ st.topicId ∈ pool) →
      GoodAcc s T pool acc → GoodAcc s T pool (l.foldl (greedyStep s T) acc)
  | [], _, _, h => h
  | hd :: tl, acc, hl, h => by
    rw [List.foldl_cons]
    exact foldl_greedyStep_good tl _ (fun st hst => hl st (List.mem_cons_of_mem hd hst))
      (greedyStep_good (hl hd (List.mem_cons_self hd tl)) h)

theorem candAcc_good (s : EngineState) (strategy : Strategy) (tid : String) (T : ℚ) :
    GoodAcc s T (topicPoolOf s tid) (candAcc s strategy tid T) := by
  unfold candAcc
  apply foldl_greedyStep_good
  · intro st hst
    have hst' : st ∈ scoredPool s strategy tid := by
      unfold sortedPool at hst
      exact mem_sortDescBy _ st _ hst
    unfold scoredPool at hst'
    rcases List.mem_filterMap.1 hst' with ⟨id, hid, hmap⟩
    rcases Option.map_eq_some'.1 hmap with ⟨tp, hlk, hsc⟩
    have hfields : st.topicId = id ∧ st.topic = tp := by
      rw [← hsc]
      unfold scoreTopic
      exact ⟨rfl, rfl⟩
    rw [hfields.1, hfields.2]
    exact ⟨hlk, hid⟩
  · refine ⟨?_, le_refl 0, ?_, ?_, ?_⟩
    · unfold sumEstIds
      simp
    · intro i hi
      simp at hi
    · intro i hi
      simp at hi
    · intro x hx
      simp at hx

/-! ## Structure of a generated path (C6, C10) -/

theorem generatePathByStrategy_struct {s : EngineState} {tid : String}
    {strategy : Strategy} {T : ℚ} {r : PathResult}
    (h : generatePathByStrategy s tid strategy T = some r) :
    ∃ cand : List String,
      r.topics = cand ++ (if targetMetP s tid cand then [tid] else []) ∧
      r.estimatedTime = sumEstIds cand
          + (if sumEstIds cand + estOfId tid ≤ T ∧ targetMetP s tid cand
             then estOfId tid else 0) ∧
      tid ∉ cand ∧
      (∀ i, i < cand.length → sumEstIds (cand.take (i + 1)) ≤ T) ∧
      (∀ i (hi : i < cand.length), ∀ pr ∈ prereqsOfId (cand.get ⟨i, hi⟩),
          (0.9 : ℚ) ≤ getTopicMastery s pr.topicId ∨ pr.topicId ∈ cand.take i) ∧
      (∀ x ∈ cand, x ∈ topicPoolOf s tid ∧ estOfId x ≤ T) := by
  unfold generatePathByStrategy at h
  cases hlk : getTopicById tid with
  | none =>
    rw [hlk] at h
    exact absurd h (by simp)
  | some tt =>
    rw [hlk] at h
    dsimp only at h
    injection h with h
    subst h
    obtain ⟨ht, hnn, hpre, hord, hmem⟩ := candAcc_good s strategy tid T
    have hest : estOfId tid = jsOr tt.estimatedTime 30 := estOfId_of_lookup hlk
    have hmetiff : (tt.prerequisites.all (prereqMetB s (candAcc s strategy tid T).path) = true)
        ↔ targetMetP s tid (candAcc s strategy tid T).path := by
      rw [all_prereqMetB_iff]
      unfold targetMetP
      rw [prereqsOfId_of_lookup hlk]
    refine ⟨(candAcc s strategy tid T).path, ?_, ?_, ?_, hpre, hord, hmem⟩
    · dsimp only
      by_cases hb : tt.prerequisites.all (prereqMetB s (candAcc s strategy tid T).path) = true
      · rw [if_pos (hmetiff.1 hb)]
        by_cases hd : decide ((candAcc s strategy tid T).time + jsOr tt.estimatedTime 30 ≤ T)
            = true
        · rw [if_pos (by rw [hd, hb]; rfl)]
        · rw [if_neg (by rw [Bool.and_eq_true]; intro hc; exact absurd hc.1 hd), if_pos hb]
      · have hbf : ¬ targetMetP s tid (candAcc s strategy tid T).path := fun hc =>
          hb (hmetiff.2 hc)
        rw [if_neg hbf, List.append_nil,
          if_neg (by rw [Bool.and_eq_true]; intro hc; exact absurd hc.2 hb), if_neg hb]
    · dsimp only
      by_cases hb : tt.prerequisites.all (prereqMetB s (candAcc s strategy tid T).path) = true
      · by_cases hd : decide ((candAcc s strategy tid T).time + jsOr tt.estimatedTime 30 ≤ T)
            = true
        · have hfit : sumEstIds (candAcc s strategy tid T).path + estOfId tid ≤ T := by
            rw [hest, ← ht]
            exact of_decide_eq_true hd
          rw [if_pos (by rw [hd, hb]; rfl), if_pos ⟨hfit, hmetiff.1 hb⟩, ht, hest]
        · have hnfit : ¬ (sumEstIds (candAcc s strategy tid T).path + estOfId tid ≤ T) := by
            rw [hest, ← ht]
            intro hc
            exact absurd (decide_eq_true hc) hd
          rw [if_neg (by rw [Bool.and_eq_true]; intro hc; exact absurd hc.1 hd),
            if_neg (fun hc => hnfit hc.1), ht, add_zero]
      · rw [if_neg (by rw [Bool.and_eq_true]; intro hc; exact absurd hc.2 hb),
          if_neg (fun hc => hb (hmetiff.2 hc.2)), ht, add_zero]
    · intro hmem'
      exact topicPoolOf_ne_target (hmem tid hmem').1 rfl

/-- Claim C6: every path generateLearningPaths produces admits a candidate
part cand such that (a) the topics are cand followed by the target exactly
when the target prerequisites are met over cand (even over budget); (b)
the target never occurs in cand; (c) every prefix of cand fits the time
budget; (d) every cand entry has each of its prerequisites mastered at
0.9 or scheduled earlier in the path; (e) cand draws from the unmastered
prerequisite pool with affordable estimates; and (f) when no pool
candidate fits the budget and the target prerequisites are unmet, the
topic list is empty. -/
theorem C6_greedy_path_constraints (s : EngineState) (tid : String) (T : ℚ)
    (lp : LearningPath) (h : lp ∈ generateLearningPaths s tid T) :
    ∃ cand : List String,
      lp.topics = cand ++ (if targetMetP s tid cand then [tid] else []) ∧
      tid ∉ cand ∧
      (∀ i, i < cand.length → sumEstIds (cand.take (i + 1)) ≤ T) ∧
      (∀ i (hi : i < cand.length), ∀ pr ∈ prereqsOfId (cand.get ⟨i, hi⟩),
          (0.9 : ℚ) ≤ getTopicMastery s pr.topicId ∨ pr.topicId ∈ cand.take i) ∧
      (∀ x ∈ cand, x ∈ topicPoolOf s tid ∧ estOfId x ≤ T) ∧
      ((∀ x ∈ topicPoolOf s tid, T < estOfId x) ∧ ¬ targetMetP s tid []
        → lp.topics = []) := by
  unfold generateLearningPaths at h
  rcases List.mem_filterMap.1 h with ⟨st, _, hmap⟩
  rcases Option.map_eq_some'.1 hmap with ⟨r, hgen, hlp⟩
  have htop : lp.topics = r.topics := by rw [← hlp]
  rcases generatePathByStrategy_struct hgen with ⟨cand, h1, _, h3, h4, h5, h6⟩
  refine ⟨cand, htop.trans h1, h3, h4, h5, h6, ?_⟩
  rintro ⟨hfit, hnm⟩
  have hcand : cand = [] := by
    cases cand with
    | nil => rfl
    | cons y ys =>
      have hy := h6 y (List.mem_cons_self y ys)
      exact absurd hy.2 (not_le.mpr (hfit y hy.1))
  have heq := htop.trans h1
  rw [hcand] at heq
  rw [heq, if_neg hnm]
  rfl

/-- Claim C7 (code bug): for a target with no prerequisites, the JS
confidence computation divides 0 by 0 and the resulting NaN passes
through the clamp, so every generated path reports NaN (modelled none)
instead of a confidence in [0.1, 1]; basic_arithmetic triggers it. -/
theorem C7_confidence_nan_on_no_prereq_target :
    (generateLearningPaths initState "basic_arithmetic" 60).map (fun lp => lp.confidence)
      = [none, none, none] := by decide

/-- Claim C10: the reported estimatedTime of every generated path counts
only the topics admitted inside the budget — the target, when
force-included over budget, contributes nothing — and at a concrete
zero-budget input the reported time (0) is strictly below the total
estimated time of the listed topics (30). -/
theorem C10_estimatedTime_excludes_forced_target :
    (∀ (s : EngineState) (tid : String) (T : ℚ) (lp : LearningPath),
        lp ∈ generateLearningPaths s tid T →
        ∃ cand : List String,
          lp.topics = cand ++ (if targetMetP s tid cand then [tid] else []) ∧
          lp.estimatedTime = sumEstIds cand
            + (if sumEstIds cand + estOfId tid ≤ T ∧ targetMetP s tid cand
               then estOfId tid else 0))
      ∧ ∃ lp ∈ generateLearningPaths initState "basic_arithmetic" 0,
          lp.topics = ["basic_arithmetic"] ∧ lp.estimatedTime = 0
            ∧ lp.estimatedTime < sumEstIds lp.topics := by
  constructor
  · intro s tid T lp h
    unfold generateLearningPaths at h
    rcases List.mem_filterMap.1 h with ⟨st, _, hmap⟩
    rcases Option.map_eq_some'.1 hmap with ⟨r, hgen, hlp⟩
    have htop : lp.topics = r.topics := by rw [← hlp]
    have htime : lp.estimatedTime = r.estimatedTime := by rw [← hlp]
    rcases generatePathByStrategy_struct hgen with ⟨cand, h1, h2, _, _, _, _⟩
    exact ⟨cand, htop.trans h1, htime.trans h2⟩
  · refine ⟨⟨"basic_arithmetic_fastest", .fastest, ["basic_arithmetic"], 0, none⟩,
      by decide, by decide, by decide, by decide⟩

instance : Inhabited LearningPath where
  default := ⟨"", .fastest, [], 0, none⟩

/-- The first (fastest-strategy) path for target fractions with a
60-minute budget on the fresh engine. -/
def demoPathFractions : LearningPath :=
  (generateLearningPaths initState "fractions" 60).headI

/-- The first (fastest-strategy) path for target basic_arithmetic with a
zero budget on the fresh engine. -/
def demoPathArithZero : LearningPath :=
  (generateLearningPaths initState "basic_arithmetic" 0).headI

/-- Witness for C6 at a concrete input: the fastest path for fractions
within 60 minutes on the fresh engine. -/
theorem C6_greedy_path_constraints_witness :
    ∃ cand : List String,
      demoPathFractions.topics
          = cand ++ (if targetMetP initState "fractions" cand then ["fractions"] else []) ∧
      "fractions" ∉ cand ∧
      (∀ i, i < cand.length → sumEstIds (cand.take (i + 1)) ≤ 60) ∧
      (∀ i (hi : i < cand.length), ∀ pr ∈ prereqsOfId (cand.get ⟨i, hi⟩),
          (0.9 : ℚ) ≤ getTopicMastery initState pr.topicId ∨ pr.topicId ∈ cand.take i) ∧
      (∀ x ∈ cand, x ∈ topicPoolOf initState "fractions" ∧ estOfId x ≤ 60) ∧
      ((∀ x ∈ topicPoolOf initState "fractions", 60 < estOfId x)
          ∧ ¬ targetMetP initState "fractions" []
        → demoPathFractions.topics = []) :=
  C6_greedy_path_constraints initState "fractions" 60 demoPathFractions (by decide)

/-- Witness for C10 at a concrete input: the fastest path for
basic_arithmetic with a zero budget on the fresh engine. -/
theorem C10_estimatedTime_excludes_forced_target_witness :
    ∃ cand : List String,
      demoPathArithZero.topics
          = cand ++ (if targetMetP initState "basic_arithmetic" cand
              then ["basic_arithmetic"] else []) ∧
      demoPathArithZero.estimatedTime = sumEstIds cand
        + (if sumEstIds cand + estOfId "basic_arithmetic" ≤ 0
              ∧ targetMetP initState "basic_arithmetic" cand
           then estOfId "basic_arithmetic" else 0) :=
  C10_estimatedTime_excludes_forced_target.1 initState "basic_arithmetic" 0 demoPathArithZero
    (by decide)
